import Mathlib

/-!
Verification of the external-scanner keystroke interpreter of the
mddstock application (the `useBarcodeScanner` hook).

The hook keeps four pieces of state: the last emitted scanned code
(`scannedCode`), the active flag (`isListening`), the pending character
buffer (`bufferRef`), and the handle of the scheduled idle-flush timer
(`timeoutRef`).  Its key-event handler `handleKeyDown` ignores events
targeting editable elements, cancels the scheduled flush, emits the
buffer on Enter, appends single alphanumeric characters, and reschedules
a 100 ms flush after every non-Enter key.

JavaScript strings are embedded as `List Char` (the buffer and the
emitted codes) or as `String` (the `key` field of a keyboard event,
which is only compared and tested, never built).  The model comes in
three layers, each translated directly from the same source:

* `ScannerState`/`step`: an untimed event model in which the scheduled
  flush is a boolean (a live timer exists or not) and the timer firing
  is an explicit action; the handler runs only while listening, mirroring
  the effect hook that attaches it exactly while `isListening` is true.
* `TState`/`tRun`: a timed model of the attached handler, in which the
  scheduled flush carries its absolute deadline (scheduling time + 100)
  and a due flush fires before the next event is handled; callback
  invocations are accumulated in `emitted`.
* `TimerState`/`runT`: a handle-level model in which `setTimeout`
  returns a fresh handle, `timeoutRef` stores the last handle, and
  `clearTimeout` removes a handle from the set of live timers; used to
  reason about how many scheduled flush timers can exist at once.
-/

/-- A raw keydown event as the handler sees it: the key identifier
string (`event.key`) and whether the event target is an INPUT, a
TEXTAREA, or a content-editable element. -/
structure KeyEvent where
  key : String
  targetEditable : Bool
deriving Repr, DecidableEq

/-- The character class of the regular expression `[a-zA-Z0-9]`:
ASCII lower-case letters, upper-case letters and digits. -/
def isAlphanumericChar (c : Char) : Bool :=
  (decide ('a' ≤ c) && decide (c ≤ 'z')) ||
  (decide ('A' ≤ c) && decide (c ≤ 'Z')) ||
  (decide ('0' ≤ c) && decide (c ≤ '9'))

/-- The acceptance test `event.key.length === 1 && /[a-zA-Z0-9]/.test(event.key)`.
The regular expression is unanchored, so `.test` succeeds exactly when some
character of the string lies in the class; together with the length-one
conjunct this is the single character itself. -/
def acceptsKey (k : String) : Bool :=
  k.length == 1 && k.data.any isAlphanumericChar

/-- The key event carrying a single character `c` and not targeting an
editable element, as delivered by scanner hardware. -/
def charKey (c : Char) : KeyEvent :=
  { key := String.mk [c], targetEditable := false }

/-- An Enter keydown not targeting an editable element. -/
def enterEvent : KeyEvent :=
  { key := "Enter", targetEditable := false }

/-! ### Untimed model -/

/-- The state of the hook: the last emitted code (`scannedCode` React
state), the active flag (`isListening` React state), the pending buffer
(`bufferRef`), and whether a scheduled flush timer is currently live
(`timeoutRef` holding a timer that has neither fired nor been
cancelled). -/
structure ScannerState where
  scannedCode : List Char
  isListening : Bool
  buffer : List Char
  timerScheduled : Bool
deriving Repr, DecidableEq

/-- The keydown handler.  Returns the updated state together with the
argument of the `onScan` callback invocation, when one happens.
Line by line from the source: return early on editable targets; cancel
the scheduled flush; on Enter emit a non-empty buffer (set the code,
invoke the callback, clear the buffer) and return; otherwise append an
accepted single alphanumeric character and schedule a fresh 100 ms
flush. -/
def handleKeyDown (s : ScannerState) (e : KeyEvent) :
    ScannerState × Option (List Char) :=
  if e.targetEditable then
    (s, none)
  else
    let s1 := { s with timerScheduled := false }
    if e.key == "Enter" then
      if 0 < s1.buffer.length then
        ({ s1 with scannedCode := s1.buffer, buffer := [] }, some s1.buffer)
      else
        (s1, none)
    else
      let s2 :=
        if acceptsKey e.key then { s1 with buffer := s1.buffer ++ e.key.data }
        else s1
      ({ s2 with timerScheduled := true }, none)

/-- The body of the scheduled flush: clear the buffer.  Firing consumes
the timer, so the live flag drops; a timer that is not live cannot
fire. -/
def timerFire (s : ScannerState) : ScannerState :=
  if s.timerScheduled then { s with buffer := [], timerScheduled := false }
  else s

/-- The hook method: set the active flag. -/
def startListening (s : ScannerState) : ScannerState :=
  { s with isListening := true }

/-- The hook method: drop the active flag, clear the buffer, and cancel
the scheduled flush if one exists. -/
def stopListening (s : ScannerState) : ScannerState :=
  { s with isListening := false, buffer := [], timerScheduled := false }

/-- The hook method: reset the exposed scanned code to empty. -/
def clearCode (s : ScannerState) : ScannerState :=
  { s with scannedCode := [] }

/-- The events the hook reacts to: a keydown, the scheduled flush timer
firing, and the three public methods. -/
inductive ScanAction where
  | keydown (e : KeyEvent)
  | timeoutFire
  | start
  | stop
  | clear
deriving Repr, DecidableEq

/-- One event step.  The keydown handler is attached to the window
exactly while `isListening` holds, so keydown events reach it only
then. -/
def step (s : ScannerState) (a : ScanAction) : ScannerState × Option (List Char) :=
  match a with
  | .keydown e => if s.isListening then handleKeyDown s e else (s, none)
  | .timeoutFire => (timerFire s, none)
  | .start => (startListening s, none)
  | .stop => (stopListening s, none)
  | .clear => (clearCode s, none)

/-- Run a sequence of events. -/
def run (s : ScannerState) : List ScanAction → ScannerState
  | [] => s
  | a :: rest => run (step s a).1 rest

/-- The state the hook mounts with: empty code, inactive, empty buffer,
no timer. -/
def initialState : ScannerState :=
  { scannedCode := [], isListening := false, buffer := [], timerScheduled := false }

/-! ### Timed model -/

/-- The timed state of the attached handler: the last emitted code, the
pending buffer, the absolute deadline of the scheduled flush (scheduling
time + 100 ms) when one is live, and the list of `onScan` callback
invocations so far (most recent last). -/
structure TState where
  scannedCode : List Char
  buffer : List Char
  deadline : Option Nat
  emitted : List (List Char)
deriving Repr, DecidableEq

/-- Fire the scheduled flush if its deadline has been reached by `now`:
the timer body clears the buffer, and the fired timer is gone. -/
def fireIfDue (s : TState) (now : Nat) : TState :=
  match s.deadline with
  | some d => if d ≤ now then { s with buffer := [], deadline := none } else s
  | none => s

/-- The timed keydown handler at time `now`, identical to
`handleKeyDown` except that cancelling and scheduling act on the
deadline and callback invocations are recorded in `emitted`. -/
def tHandle (s : TState) (now : Nat) (e : KeyEvent) : TState :=
  if e.targetEditable then
    s
  else
    let s1 := { s with deadline := none }
    if e.key == "Enter" then
      if 0 < s1.buffer.length then
        { s1 with scannedCode := s1.buffer, buffer := [],
                  emitted := s1.emitted ++ [s1.buffer] }
      else
        s1
    else
      let s2 :=
        if acceptsKey e.key then { s1 with buffer := s1.buffer ++ e.key.data }
        else s1
      { s2 with deadline := some (now + 100) }

/-- Deliver a keydown at time `now`: a flush whose deadline has passed
fires first, then the handler runs. -/
def tStep (s : TState) (now : Nat) (e : KeyEvent) : TState :=
  tHandle (fireIfDue s now) now e

/-- Run a sequence of keydown events given as (gap since the previous
event, event) pairs, starting from clock value `now`. -/
def tRun (s : TState) (now : Nat) : List (Nat × KeyEvent) → TState
  | [] => s
  | (g, e) :: rest => tRun (tStep s (now + g) e) (now + g) rest

/-- A burst of single-character keystrokes given as (gap, character)
pairs, none targeting an editable element. -/
def charEvents (ps : List (Nat × Char)) : List (Nat × KeyEvent) :=
  ps.map (fun p => (p.1, charKey p.2))

/-- Total time taken by a list of (gap, character) pairs. -/
def gapSum (ps : List (Nat × Char)) : Nat :=
  (ps.map Prod.fst).sum

/-! ### Handle-level timer model -/

/-- The handle-level state: buffer and code as before, `live` the list of
scheduled timers that have neither fired nor been cancelled, `currentRef`
the contents of `timeoutRef` (the handle returned by the last
`setTimeout`, not reset on cancellation or firing), and `nextId` a
supply of fresh handles. -/
structure TimerState where
  scannedCode : List Char
  buffer : List Char
  live : List Nat
  currentRef : Option Nat
  nextId : Nat
deriving Repr, DecidableEq

/-- The `clearTimeout(timeoutRef.current)` call guarded by a null check:
when the ref holds a handle, that handle stops being live (a no-op when
the timer already fired or was already cancelled). -/
def clearCurrent (s : TimerState) : TimerState :=
  match s.currentRef with
  | some h => { s with live := s.live.erase h }
  | none => s

/-- The keydown handler over handle-level state: same control flow as
`handleKeyDown`, with cancellation via `clearCurrent` and scheduling via
a fresh handle appended to `live` and stored in the ref. -/
def handleKeyDownT (s : TimerState) (e : KeyEvent) :
    TimerState × Option (List Char) :=
  if e.targetEditable then
    (s, none)
  else
    let s1 := clearCurrent s
    if e.key == "Enter" then
      if 0 < s1.buffer.length then
        ({ s1 with scannedCode := s1.buffer, buffer := [] }, some s1.buffer)
      else
        (s1, none)
    else
      let s2 :=
        if acceptsKey e.key then { s1 with buffer := s1.buffer ++ e.key.data }
        else s1
      ({ s2 with live := s2.live ++ [s2.nextId],
                 currentRef := some s2.nextId,
                 nextId := s2.nextId + 1 }, none)

/-- A scheduled timer with handle `h` fires: only a live timer can fire;
its body clears the buffer, and the fired timer stops being live. -/
def fireTimerT (s : TimerState) (h : Nat) : TimerState :=
  if h ∈ s.live then { s with buffer := [], live := s.live.erase h }
  else s

/-- The stop method at handle level: clear the buffer and cancel the
timer held by the ref. -/
def stopListeningT (s : TimerState) : TimerState :=
  clearCurrent { s with buffer := [] }

/-- Events that touch the timers: keydown delivery, a timer firing, and
the stop method (the remaining hook methods never touch timers). -/
inductive TimerActionT where
  | keydown (e : KeyEvent)
  | fire (h : Nat)
  | stop
deriving Repr, DecidableEq

/-- One handle-level event step. -/
def stepT (s : TimerState) (a : TimerActionT) : TimerState :=
  match a with
  | .keydown e => (handleKeyDownT s e).1
  | .fire h => fireTimerT s h
  | .stop => stopListeningT s

/-- Run a sequence of handle-level events. -/
def runT (s : TimerState) : List TimerActionT → TimerState
  | [] => s
  | a :: rest => runT (stepT s a) rest

/-- The handle-level mount state: nothing buffered, no timer ever
created. -/
def initialT : TimerState :=
  { scannedCode := [], buffer := [], live := [], currentRef := none, nextId := 0 }

/-- The invariant tying the ref to the live timers: every live timer is
the one the ref holds (so there is at most one), and any held handle was
produced by the supply. -/
def timerInv (s : TimerState) : Prop :=
  (s.live = [] ∨ ∃ h, s.currentRef = some h ∧ s.live = [h]) ∧
  (∀ h, s.currentRef = some h → h < s.nextId)

/-! ### Helper lemmas for the timed model -/

lemma single_key_ne_enter (c : Char) : (String.mk [c] == "Enter") = false := by
  apply beq_eq_false_iff_ne.mpr
  intro h
  have h1 : (String.mk [c]).length = ("Enter" : String).length :=
    congrArg String.length h
  have h2 : (String.mk [c]).length = 1 := rfl
  have h3 : ("Enter" : String).length = 5 := rfl
  omega

lemma acceptsKey_single (c : Char) :
    acceptsKey (String.mk [c]) = isAlphanumericChar c := by
  simp [acceptsKey, String.length]

lemma fireIfDue_of_none (s : TState) (now : Nat) (h : s.deadline = none) :
    fireIfDue s now = s := by
  cases s with
  | mk sc bf dl em =>
      simp only [TState.deadline] at h
      subst h
      rfl

lemma fireIfDue_of_some (s : TState) (now d : Nat) (h : s.deadline = some d) :
    fireIfDue s now =
      if d ≤ now then { s with buffer := [], deadline := none } else s := by
  cases s with
  | mk sc bf dl em =>
      simp only [TState.deadline] at h
      subst h
      rfl

lemma charEvents_cons (g : Nat) (c : Char) (rest : List (Nat × Char)) :
    charEvents ((g, c) :: rest) = (g, charKey c) :: charEvents rest := rfl

lemma tStep_char_fresh (s : TState) (t : Nat) (c : Char)
    (hc : isAlphanumericChar c = true) (d : Nat)
    (hd : s.deadline = some d) (hlt : t < d) :
    tStep s t (charKey c) =
      { s with buffer := s.buffer ++ [c], deadline := some (t + 100) } := by
  unfold tStep
  rw [fireIfDue_of_some s t d hd, if_neg (by omega)]
  unfold tHandle charKey
  simp [single_key_ne_enter, acceptsKey_single, hc]

lemma tStep_char_emptybuf (s : TState) (t : Nat) (c : Char)
    (hb : s.buffer = []) (hc : isAlphanumericChar c = true) :
    tStep s t (charKey c) =
      { s with buffer := [c], deadline := some (t + 100) } := by
  unfold tStep
  cases hdl : s.deadline with
  | none =>
      rw [fireIfDue_of_none s t hdl]
      unfold tHandle charKey
      simp [single_key_ne_enter, acceptsKey_single, hc, hb]
  | some d =>
      rw [fireIfDue_of_some s t d hdl]
      by_cases hle : d ≤ t
      · rw [if_pos hle]
        unfold tHandle charKey
        simp [single_key_ne_enter, acceptsKey_single, hc]
      · rw [if_neg hle]
        unfold tHandle charKey
        simp [single_key_ne_enter, acceptsKey_single, hc, hb]

lemma tStep_enter (s : TState) (t : Nat) (d : Nat)
    (hd : s.deadline = some d) (hlt : t < d) (hb : s.buffer ≠ []) :
    tStep s t enterEvent =
      { s with scannedCode := s.buffer, buffer := [], deadline := none,
               emitted := s.emitted ++ [s.buffer] } := by
  unfold tStep
  rw [fireIfDue_of_some s t d hd, if_neg (by omega)]
  unfold tHandle enterEvent
  simp [List.length_pos.mpr hb]

lemma tRun_append (as bs : List (Nat × KeyEvent)) : ∀ (s : TState) (now : Nat),
    tRun s now (as ++ bs) =
      tRun (tRun s now as) (now + (as.map Prod.fst).sum) bs := by
  induction as with
  | nil => intro s now; simp [tRun]
  | cons p rest ih =>
      intro s now
      obtain ⟨g, e⟩ := p
      simp only [List.cons_append, tRun, List.map_cons, List.sum_cons,
        List.append_eq]
      rw [ih]
      simp [Nat.add_assoc]

lemma tRun_charEvents (ps : List (Nat × Char)) : ∀ (s : TState) (now : Nat),
    (∀ p ∈ ps, p.1 < 100 ∧ isAlphanumericChar p.2 = true) →
    s.deadline = some (now + 100) →
    tRun s now (charEvents ps) =
      { s with buffer := s.buffer ++ ps.map Prod.snd,
               deadline := some (now + gapSum ps + 100) } := by
  induction ps with
  | nil =>
      intro s now _ hd
      cases s with
      | mk sc bf dl em =>
          simp only [TState.deadline] at hd
          subst hd
          simp [tRun, charEvents, gapSum]
  | cons p rest ih =>
      intro s now hps hd
      obtain ⟨g, c⟩ := p
      have hg : g < 100 := (hps (g, c) (List.mem_cons_self _ _)).1
      have hc : isAlphanumericChar c = true :=
        (hps (g, c) (List.mem_cons_self _ _)).2
      have hrest : ∀ p ∈ rest, p.1 < 100 ∧ isAlphanumericChar p.2 = true :=
        fun p hp => hps p (List.mem_cons_of_mem _ hp)
      rw [charEvents_cons]
      simp only [tRun]
      rw [tStep_char_fresh s (now + g) c hc (now + 100) hd (by omega)]
      rw [ih _ (now + g) hrest rfl]
      simp [gapSum, List.append_assoc, Nat.add_assoc]

lemma charEvents_gaps (qs : List (Nat × Char)) :
    ((charEvents qs).map Prod.fst).sum = gapSum qs := by
  simp only [charEvents, gapSum, List.map_map]
  rfl

lemma tRun_tail (qs : List (Nat × Char)) (s : TState) (now gE : Nat)
    (hqs : ∀ p ∈ qs, p.1 < 100 ∧ isAlphanumericChar p.2 = true)
    (hgE : gE < 100) (hd : s.deadline = some (now + 100)) (hb : s.buffer ≠ []) :
    tRun s now (charEvents qs ++ [(gE, enterEvent)]) =
      { scannedCode := s.buffer ++ qs.map Prod.snd, buffer := [],
        deadline := none,
        emitted := s.emitted ++ [s.buffer ++ qs.map Prod.snd] } := by
  rw [tRun_append, tRun_charEvents qs s now hqs hd, charEvents_gaps]
  simp only [tRun]
  rw [tStep_enter _ _ (now + gapSum qs + 100) rfl (by omega)
    (fun h => hb (List.append_eq_nil.mp h).1)]

lemma tRun_burst (ps : List (Nat × Char)) (s : TState) (now gE : Nat)
    (hps : ∀ p ∈ ps, p.1 < 100 ∧ isAlphanumericChar p.2 = true)
    (hne : ps ≠ []) (hb : s.buffer = []) (hgE : gE < 100) :
    tRun s now (charEvents ps ++ [(gE, enterEvent)]) =
      { scannedCode := ps.map Prod.snd, buffer := [], deadline := none,
        emitted := s.emitted ++ [ps.map Prod.snd] } := by
  obtain ⟨p, rest, rfl⟩ := List.exists_cons_of_ne_nil hne
  obtain ⟨g, c⟩ := p
  have hc : isAlphanumericChar c = true := (hps (g, c) (List.mem_cons_self _ _)).2
  have hrest : ∀ p ∈ rest, p.1 < 100 ∧ isAlphanumericChar p.2 = true :=
    fun p hp => hps p (List.mem_cons_of_mem _ hp)
  rw [charEvents_cons]
  simp only [List.cons_append, tRun]
  rw [tStep_char_emptybuf s (now + g) c hb hc]
  simp only [List.append_eq]
  rw [tRun_tail rest _ (now + g) gE hrest hgE rfl (by simp)]
  simp

lemma tStep_char_expired (s : TState) (t : Nat) (c : Char)
    (hc : isAlphanumericChar c = true) (d : Nat)
    (hd : s.deadline = some d) (hle : d ≤ t) :
    tStep s t (charKey c) =
      { s with buffer := [c], deadline := some (t + 100) } := by
  unfold tStep
  rw [fireIfDue_of_some s t d hd, if_pos hle]
  unfold tHandle charKey
  simp [single_key_ne_enter, acceptsKey_single, hc]

lemma tStep_nonEnter_facts (s : TState) (t : Nat) (k : String)
    (hk : (k == "Enter") = false) :
    (tStep s t { key := k, targetEditable := false }).deadline = some (t + 100) ∧
    (tStep s t { key := k, targetEditable := false }).scannedCode = s.scannedCode ∧
    (tStep s t { key := k, targetEditable := false }).emitted = s.emitted := by
  unfold tStep
  by_cases ha : acceptsKey k = true
  · cases hdl : s.deadline with
    | none =>
        rw [fireIfDue_of_none s t hdl]
        simp [tHandle, hk, ha]
    | some d =>
        rw [fireIfDue_of_some s t d hdl]
        by_cases hle : d ≤ t
        · rw [if_pos hle]; simp [tHandle, hk, ha]
        · rw [if_neg hle]; simp [tHandle, hk, ha]
  · cases hdl : s.deadline with
    | none =>
        rw [fireIfDue_of_none s t hdl]
        simp [tHandle, hk, ha]
    | some d =>
        rw [fireIfDue_of_some s t d hdl]
        by_cases hle : d ≤ t
        · rw [if_pos hle]; simp [tHandle, hk, ha]
        · rw [if_neg hle]; simp [tHandle, hk, ha]

/-- C1: while the interpreter is active with an empty pending buffer, a
burst of single-character alphanumeric keystrokes, none targeting an
editable element, with every inter-key gap under 100 ms, terminated by
an Enter keystroke within 100 ms, sets the scanned code to the
concatenation of the characters in delivery order, invokes the `onScan`
callback exactly once with that string, and clears the pending
buffer. -/
theorem scanner_c1 (ps : List (Nat × Char)) (s : TState) (now gE : Nat)
    (hps : ∀ p ∈ ps, p.1 < 100 ∧ isAlphanumericChar p.2 = true)
    (hne : ps ≠ []) (hb : s.buffer = []) (hgE : gE < 100) :
    tRun s now (charEvents ps ++ [(gE, enterEvent)]) =
      { scannedCode := ps.map Prod.snd, buffer := [], deadline := none,
        emitted := s.emitted ++ [ps.map Prod.snd] } :=
  tRun_burst ps s now gE hps hne hb hgE

theorem scanner_c1_witness :
    tRun { scannedCode := [], buffer := [], deadline := none, emitted := [] } 0
      (charEvents [(10, '7'), (10, '7'), (10, '7')] ++ [(10, enterEvent)]) =
      { scannedCode := ['7', '7', '7'], buffer := [], deadline := none,
        emitted := [['7', '7', '7']] } :=
  scanner_c1 [(10, '7'), (10, '7'), (10, '7')] _ 0 10 (by decide) (by decide)
    rfl (by decide)

/-- C2: when a flush is scheduled and its 100 ms deadline passes with no
further keystroke, the flush clears the pending buffer without touching
the scanned code and without invoking the callback; consequently after
any keystroke followed by a gap of at least 100 ms, only the keystrokes
after the gap, when terminated by Enter within the threshold, are
reflected in the emitted code. -/
theorem scanner_c2 :
    (∀ (s : TState) (d now : Nat), s.deadline = some d → d ≤ now →
      fireIfDue s now = { s with buffer := [], deadline := none }) ∧
    (∀ (s : TState) (now g0 g gE : Nat) (k : String) (b : Char)
        (qs : List (Nat × Char)),
      (k == "Enter") = false → 100 ≤ g → gE < 100 →
      isAlphanumericChar b = true →
      (∀ p ∈ qs, p.1 < 100 ∧ isAlphanumericChar p.2 = true) →
      tRun s now ((g0, { key := k, targetEditable := false }) ::
          (g, charKey b) :: (charEvents qs ++ [(gE, enterEvent)])) =
        { scannedCode := b :: qs.map Prod.snd, buffer := [], deadline := none,
          emitted := s.emitted ++ [b :: qs.map Prod.snd] }) := by
  constructor
  · intro s d now hd hle
    rw [fireIfDue_of_some s now d hd, if_pos hle]
  · intro s now g0 g gE k b qs hk hg hgE hb hqs
    simp only [tRun]
    obtain ⟨hdl, hsc, hem⟩ := tStep_nonEnter_facts s (now + g0) k hk
    rw [tStep_char_expired _ (now + g0 + g) b hb (now + g0 + 100) hdl (by omega)]
    rw [tRun_tail qs _ (now + g0 + g) gE hqs hgE rfl (by simp)]
    simp [hem]

theorem scanner_c2_witness :
    tRun { scannedCode := [], buffer := [], deadline := none, emitted := [] } 0
      ((0, { key := "a", targetEditable := false }) :: (150, charKey 'b') ::
        (charEvents [] ++ [(10, enterEvent)])) =
      { scannedCode := ['b'], buffer := [], deadline := none,
        emitted := [['b']] } :=
  scanner_c2.2 _ 0 0 150 10 "a" 'b' [] (by decide) (by decide) (by decide)
    (by decide) (by decide)

/-! ### Helper lemmas for the untimed model -/

lemma acceptsKey_data_all (k : String) (h : acceptsKey k = true) :
    k.data.all isAlphanumericChar = true := by
  unfold acceptsKey at h
  obtain ⟨h1, h2⟩ := Bool.and_eq_true_iff.mp h
  have hlen1 : k.length = 1 := by simpa using h1
  have hlen : k.data.length = 1 := hlen1
  obtain ⟨c, hc⟩ := List.length_eq_one.mp hlen
  rw [hc] at h2 ⊢
  simpa using h2

lemma handleKeyDown_cases (s : ScannerState) (e : KeyEvent) :
    (e.targetEditable = true ∧ handleKeyDown s e = (s, none)) ∨
    (e.targetEditable = false ∧ e.key = "Enter" ∧ 0 < s.buffer.length ∧
      handleKeyDown s e =
        ({ s with scannedCode := s.buffer, buffer := [], timerScheduled := false },
          some s.buffer)) ∨
    (e.targetEditable = false ∧ e.key = "Enter" ∧ s.buffer = [] ∧
      handleKeyDown s e = ({ s with timerScheduled := false }, none)) ∨
    (e.targetEditable = false ∧ (e.key == "Enter") = false ∧
      acceptsKey e.key = true ∧
      handleKeyDown s e =
        ({ s with buffer := s.buffer ++ e.key.data, timerScheduled := true },
          none)) ∨
    (e.targetEditable = false ∧ (e.key == "Enter") = false ∧
      acceptsKey e.key = false ∧
      handleKeyDown s e = ({ s with timerScheduled := true }, none)) := by
  by_cases he : e.targetEditable = true
  · exact Or.inl ⟨he, by simp [handleKeyDown, he]⟩
  · have he0 : e.targetEditable = false := by simpa using he
    by_cases hk : (e.key == "Enter") = true
    · have hk1 : e.key = "Enter" := by simpa using hk
      by_cases hb : 0 < s.buffer.length
      · refine Or.inr (Or.inl ⟨he0, hk1, hb, ?_⟩)
        simp [handleKeyDown, he0, hk, hb]
      · have hb0 : s.buffer = [] :=
          List.eq_nil_of_length_eq_zero (Nat.le_zero.mp (Nat.not_lt.mp hb))
        refine Or.inr (Or.inr (Or.inl ⟨he0, hk1, hb0, ?_⟩))
        simp [handleKeyDown, he0, hk, hb]
    · have hk0 : (e.key == "Enter") = false := by simpa using hk
      by_cases ha : acceptsKey e.key = true
      · refine Or.inr (Or.inr (Or.inr (Or.inl ⟨he0, hk0, ha, ?_⟩)))
        simp [handleKeyDown, he0, hk0, ha]
      · have ha0 : acceptsKey e.key = false := by simpa using ha
        refine Or.inr (Or.inr (Or.inr (Or.inr ⟨he0, hk0, ha0, ?_⟩)))
        simp [handleKeyDown, he0, hk0, ha0]

lemma step_buffer_alnum (s : ScannerState) (a : ScanAction)
    (h : s.buffer.all isAlphanumericChar = true) :
    (step s a).1.buffer.all isAlphanumericChar = true := by
  cases a with
  | keydown e =>
      by_cases hl : s.isListening = true
      · rcases handleKeyDown_cases s e with ⟨_, heq⟩ | ⟨_, _, _, heq⟩ |
          ⟨_, _, _, heq⟩ | ⟨_, _, ha, heq⟩ | ⟨_, _, _, heq⟩ <;>
          simp [step, hl, heq, List.all_append, h]
        simpa using acceptsKey_data_all e.key ha
      · have hl0 : s.isListening = false := by simpa using hl
        simpa [step, hl0] using h
  | timeoutFire =>
      by_cases ht : s.timerScheduled = true <;> simp [step, timerFire, ht, h]
  | start => simpa [step, startListening] using h
  | stop => simp [step, stopListening]
  | clear => simpa [step, clearCode] using h

lemma run_buffer_alnum (as : List ScanAction) : ∀ s : ScannerState,
    s.buffer.all isAlphanumericChar = true →
    (run s as).buffer.all isAlphanumericChar = true := by
  induction as with
  | nil => intro s h; exact h
  | cons a rest ih => intro s h; exact ih _ (step_buffer_alnum s a h)

lemma step_preserves_inactive (s : ScannerState) (a : ScanAction)
    (h : s.isListening = false → s.buffer = []) :
    (step s a).1.isListening = false → (step s a).1.buffer = [] := by
  cases a with
  | keydown e =>
      by_cases hl : s.isListening = true
      · rcases handleKeyDown_cases s e with ⟨_, heq⟩ | ⟨_, _, _, heq⟩ |
          ⟨_, _, _, heq⟩ | ⟨_, _, _, heq⟩ | ⟨_, _, _, heq⟩ <;>
          simp [step, hl, heq, h]
      · have hl0 : s.isListening = false := by simpa using hl
        simpa [step, hl0] using h
  | timeoutFire =>
      by_cases ht : s.timerScheduled = true
      · simp [step, timerFire, ht]
      · simpa [step, timerFire, ht] using h
  | start => simp [step, startListening]
  | stop => simp [step, stopListening]
  | clear => simpa [step, clearCode] using h

lemma run_preserves_inactive (as : List ScanAction) : ∀ s : ScannerState,
    (s.isListening = false → s.buffer = []) →
    ((run s as).isListening = false → (run s as).buffer = []) := by
  induction as with
  | nil => intro s h; exact h
  | cons a rest ih => intro s h; exact ih _ (step_preserves_inactive s a h)

/-- C3: every character in the pending buffer of any reachable state
satisfies the alphanumeric predicate; a non-Enter key that fails the
single-alphanumeric-character test never changes the buffer; and the
burst `1`, `-`, `2`, Enter with 10 ms gaps emits the code `12`. -/
theorem scanner_c3 :
    (∀ as : List ScanAction,
      (run initialState as).buffer.all isAlphanumericChar = true) ∧
    (∀ (s : ScannerState) (e : KeyEvent), (e.key == "Enter") = false →
      acceptsKey e.key = false →
      (step s (ScanAction.keydown e)).1.buffer = s.buffer) ∧
    (tRun { scannedCode := [], buffer := [], deadline := none, emitted := [] } 0
      [(10, { key := "1", targetEditable := false }),
       (10, { key := "-", targetEditable := false }),
       (10, { key := "2", targetEditable := false }),
       (10, enterEvent)]).scannedCode = ['1', '2'] := by
  refine ⟨?_, ?_, by decide⟩
  · intro as
    exact run_buffer_alnum as initialState rfl
  · intro s e hk ha
    by_cases hl : s.isListening = true
    · rcases handleKeyDown_cases s e with ⟨_, heq⟩ | ⟨_, hk1, _, _⟩ |
        ⟨_, hk1, _, heq⟩ | ⟨_, _, ha1, _⟩ | ⟨_, _, _, heq⟩
      · simp [step, hl, heq]
      · rw [hk1] at hk; simp at hk
      · rw [hk1] at hk; simp at hk
      · rw [ha1] at ha; simp at ha
      · simp [step, hl, heq]
    · have hl0 : s.isListening = false := by simpa using hl
      simp [step, hl0]

theorem scanner_c3_witness :
    (step initialState
      (ScanAction.keydown { key := "-", targetEditable := false })).1.buffer =
      initialState.buffer :=
  scanner_c3.2.1 initialState { key := "-", targetEditable := false }
    (by decide) (by decide)

/-- C4: a keydown whose target is an input, text-area, or
content-editable element is ignored entirely, in every model and
regardless of the active flag: the state (buffer, scanned code, timer)
is returned unchanged and the callback is not invoked. -/
theorem scanner_c4 (s : ScannerState) (sT : TState) (e : KeyEvent) (now : Nat)
    (he : e.targetEditable = true) :
    handleKeyDown s e = (s, none) ∧
    step s (ScanAction.keydown e) = (s, none) ∧
    tHandle sT now e = sT := by
  refine ⟨by simp [handleKeyDown, he], ?_, by simp [tHandle, he]⟩
  by_cases hl : s.isListening = true
  · simp [step, hl, handleKeyDown, he]
  · have hl0 : s.isListening = false := by simpa using hl
    simp [step, hl0]

theorem scanner_c4_witness :
    handleKeyDown ⟨['x'], true, ['y'], true⟩ ⟨"a", true⟩ =
      (⟨['x'], true, ['y'], true⟩, none) ∧
    step ⟨['x'], true, ['y'], true⟩ (ScanAction.keydown ⟨"a", true⟩) =
      (⟨['x'], true, ['y'], true⟩, none) ∧
    tHandle ⟨[], ['y'], some 40, []⟩ 7 ⟨"a", true⟩ =
      ⟨[], ['y'], some 40, []⟩ :=
  scanner_c4 _ _ ⟨"a", true⟩ 7 rfl

/-- C5: an Enter keydown with an empty pending buffer, not targeting an
editable element, emits nothing: the scanned code is unchanged, the
callback is not invoked, the buffer stays empty, and no flush timer is
scheduled afterwards; moreover the Enter key itself is never appended to
the buffer. -/
theorem scanner_c5 :
    (∀ (s : ScannerState) (e : KeyEvent), e.targetEditable = false →
      e.key = "Enter" → s.buffer = [] →
      (handleKeyDown s e).1.scannedCode = s.scannedCode ∧
      (handleKeyDown s e).2 = none ∧
      (handleKeyDown s e).1.buffer = [] ∧
      (handleKeyDown s e).1.timerScheduled = false ∧
      (handleKeyDown s e).1.isListening = s.isListening) ∧
    (∀ (s : ScannerState) (e : KeyEvent), e.key = "Enter" →
      (handleKeyDown s e).1.buffer = s.buffer ∨
      (handleKeyDown s e).1.buffer = []) := by
  constructor
  · intro s e he hk hb
    simp [handleKeyDown, he, hk, hb]
  · intro s e hk
    rcases handleKeyDown_cases s e with ⟨_, heq⟩ | ⟨_, _, _, heq⟩ |
      ⟨_, _, _, heq⟩ | ⟨_, hk0, _, _⟩ | ⟨_, hk0, _, heq⟩
    · left; rw [heq]
    · right; rw [heq]
    · left; rw [heq]
    · rw [hk] at hk0; simp at hk0
    · rw [hk] at hk0; simp at hk0

theorem scanner_c5_witness :
    (handleKeyDown ⟨['x'], true, [], true⟩ enterEvent).1.scannedCode = ['x'] ∧
    (handleKeyDown ⟨['x'], true, [], true⟩ enterEvent).2 = none ∧
    (handleKeyDown ⟨['x'], true, [], true⟩ enterEvent).1.buffer = [] ∧
    (handleKeyDown ⟨['x'], true, [], true⟩ enterEvent).1.timerScheduled =
      false ∧
    (handleKeyDown ⟨['x'], true, [], true⟩ enterEvent).1.isListening = true :=
  scanner_c5.1 _ enterEvent rfl rfl rfl

/-- C6: `stopListening` clears the pending buffer, cancels the scheduled
flush, and deactivates; in every state reachable from the mount state
the buffer is empty whenever the interpreter is inactive; and after
stopping and restarting, a subsequent Enter emits nothing and leaves the
scanned code unchanged, so the discarded fragment is not replayed. -/
theorem scanner_c6 :
    (∀ s : ScannerState, (stopListening s).buffer = [] ∧
      (stopListening s).timerScheduled = false ∧
      (stopListening s).isListening = false) ∧
    (∀ as : List ScanAction, (run initialState as).isListening = false →
      (run initialState as).buffer = []) ∧
    (∀ (s : ScannerState) (e : KeyEvent), e.key = "Enter" →
      (step (startListening (stopListening s)) (ScanAction.keydown e)).2 =
        none ∧
      (step (startListening (stopListening s))
        (ScanAction.keydown e)).1.scannedCode = s.scannedCode) := by
  refine ⟨fun s => ⟨rfl, rfl, rfl⟩, ?_, ?_⟩
  · intro as
    exact run_preserves_inactive as initialState (fun _ => rfl)
  · intro s e hk
    by_cases he : e.targetEditable = true
    · simp [step, startListening, stopListening, handleKeyDown, he]
    · have he0 : e.targetEditable = false := by simpa using he
      simp [step, startListening, stopListening, handleKeyDown, he0, hk]

theorem scanner_c6_witness :
    (step (startListening (stopListening ⟨['x'], true, ['y', 'z'], true⟩))
      (ScanAction.keydown enterEvent)).2 = none ∧
    (step (startListening (stopListening ⟨['x'], true, ['y', 'z'], true⟩))
      (ScanAction.keydown enterEvent)).1.scannedCode = ['x'] :=
  scanner_c6.2.2 _ enterEvent rfl

/-- C8: `clearCode` resets the exposed scanned code to empty and leaves
the active flag, the pending buffer, and the scheduled flush timer
unchanged. -/
theorem scanner_c8 (s : ScannerState) :
    (clearCode s).scannedCode = [] ∧
    (clearCode s).isListening = s.isListening ∧
    (clearCode s).buffer = s.buffer ∧
    (clearCode s).timerScheduled = s.timerScheduled :=
  ⟨rfl, rfl, rfl, rfl⟩

/-- C9: `startListening` is idempotent: on an already-active state it is
the identity, and composed with itself it equals a single call. -/
theorem scanner_c9 :
    (∀ s : ScannerState, s.isListening = true → startListening s = s) ∧
    (∀ s : ScannerState, startListening (startListening s) =
      startListening s) := by
  constructor
  · intro s hl
    cases s with
    | mk sc l b t =>
        simp only [ScannerState.isListening] at hl
        subst hl
        rfl
  · intro s
    rfl

theorem scanner_c9_witness :
    startListening ⟨[], true, ['a'], true⟩ =
      (⟨[], true, ['a'], true⟩ : ScannerState) :=
  scanner_c9.1 _ rfl

/-- C10: the exposed scanned code survives deactivation and idle
flushes: `stopListening`, the untimed flush, and the timed flush all
leave it unchanged, and over all events the code changes only through
`clearCode` (to empty) or through an Enter-completed scan of a non-empty
buffer, which also invokes the callback with that buffer. -/
theorem scanner_c10 :
    (∀ s : ScannerState, (stopListening s).scannedCode = s.scannedCode) ∧
    (∀ s : ScannerState, (timerFire s).scannedCode = s.scannedCode) ∧
    (∀ (sT : TState) (now : Nat),
      (fireIfDue sT now).scannedCode = sT.scannedCode) ∧
    (∀ (s : ScannerState) (a : ScanAction),
      (step s a).1.scannedCode = s.scannedCode ∨
      (a = ScanAction.clear ∧ (step s a).1.scannedCode = []) ∨
      ((step s a).2 = some s.buffer ∧ (step s a).1.scannedCode = s.buffer ∧
        s.buffer ≠ [] ∧ ∃ e, a = ScanAction.keydown e ∧ e.key = "Enter" ∧
          e.targetEditable = false ∧ s.isListening = true)) := by
  refine ⟨fun s => rfl, ?_, ?_, ?_⟩
  · intro s
    by_cases ht : s.timerScheduled = true <;> simp [timerFire, ht]
  · intro sT now
    cases hdl : sT.deadline with
    | none => rw [fireIfDue_of_none sT now hdl]
    | some d =>
        rw [fireIfDue_of_some sT now d hdl]
        by_cases hle : d ≤ now
        · rw [if_pos hle]
        · rw [if_neg hle]
  · intro s a
    cases a with
    | keydown e =>
        by_cases hl : s.isListening = true
        · rcases handleKeyDown_cases s e with ⟨_, heq⟩ | ⟨he, hk, hb, heq⟩ |
            ⟨_, _, _, heq⟩ | ⟨_, _, _, heq⟩ | ⟨_, _, _, heq⟩
          · left; simp [step, hl, heq]
          · refine Or.inr (Or.inr ⟨?_, ?_, ?_, e, rfl, hk, he, hl⟩)
            · simp [step, hl, heq]
            · simp [step, hl, heq]
            · exact List.length_pos.mp hb
          · left; simp [step, hl, heq]
          · left; simp [step, hl, heq]
          · left; simp [step, hl, heq]
        · have hl0 : s.isListening = false := by simpa using hl
          left; simp [step, hl0]
    | timeoutFire =>
        left
        by_cases ht : s.timerScheduled = true <;> simp [step, timerFire, ht]
    | start => left; rfl
    | stop => left; rfl
    | clear => exact Or.inr (Or.inl ⟨rfl, rfl⟩)

/-! ### Handle-level timer lemmas -/

lemma clearCurrent_facts (s : TimerState) (hinv : timerInv s) :
    (clearCurrent s).live = [] ∧ (clearCurrent s).currentRef = s.currentRef ∧
    (clearCurrent s).nextId = s.nextId ∧ (clearCurrent s).buffer = s.buffer ∧
    (clearCurrent s).scannedCode = s.scannedCode := by
  obtain ⟨h1, h2⟩ := hinv
  cases href : s.currentRef with
  | none =>
      have hlive : s.live = [] := by
        rcases h1 with hl | ⟨h0, hh, _⟩
        · exact hl
        · rw [href] at hh; cases hh
      simp [clearCurrent, href, hlive]
  | some hd =>
      rcases h1 with hl | ⟨h0, hh, hl⟩
      · simp [clearCurrent, href, hl]
      · rw [href] at hh
        injection hh with hh0
        subst hh0
        simp [clearCurrent, href, hl]

lemma handleKeyDownT_nonEnter (s : TimerState) (e : KeyEvent)
    (hinv : timerInv s) (he : e.targetEditable = false)
    (hk : (e.key == "Enter") = false) :
    (handleKeyDownT s e).1.live = [s.nextId] ∧
    (handleKeyDownT s e).1.currentRef = some s.nextId ∧
    (handleKeyDownT s e).1.nextId = s.nextId + 1 := by
  obtain ⟨hl, hr, hn, _, _⟩ := clearCurrent_facts s hinv
  by_cases ha : acceptsKey e.key = true
  · simp [handleKeyDownT, he, hk, ha, hl, hn]
  · simp [handleKeyDownT, he, hk, ha, hl, hn]

lemma handleKeyDownT_enter (s : TimerState) (e : KeyEvent)
    (hinv : timerInv s) (he : e.targetEditable = false)
    (hk : e.key = "Enter") :
    (handleKeyDownT s e).1.live = [] ∧
    (handleKeyDownT s e).1.currentRef = s.currentRef ∧
    (handleKeyDownT s e).1.nextId = s.nextId := by
  obtain ⟨hl, hr, hn, _, _⟩ := clearCurrent_facts s hinv
  by_cases hb : 0 < (clearCurrent s).buffer.length
  · simp [handleKeyDownT, he, hk, hb, hl, hr, hn]
  · simp [handleKeyDownT, he, hk, hb, hl, hr, hn]

lemma timerInv_step (s : TimerState) (a : TimerActionT) (hinv : timerInv s) :
    timerInv (stepT s a) := by
  cases a with
  | keydown e =>
      by_cases he : e.targetEditable = true
      · simpa [stepT, handleKeyDownT, he] using hinv
      · have he0 : e.targetEditable = false := by simpa using he
        by_cases hk : (e.key == "Enter") = true
        · have hk1 : e.key = "Enter" := by simpa using hk
          obtain ⟨h1, h2, h3⟩ := handleKeyDownT_enter s e hinv he0 hk1
          refine ⟨Or.inl h1, ?_⟩
          intro hd hdd
          rw [show (stepT s (TimerActionT.keydown e)) = (handleKeyDownT s e).1
            from rfl, h2] at hdd
          rw [show (stepT s (TimerActionT.keydown e)) = (handleKeyDownT s e).1
            from rfl, h3]
          exact hinv.2 hd hdd
        · have hk0 : (e.key == "Enter") = false := by simpa using hk
          obtain ⟨h1, h2, h3⟩ := handleKeyDownT_nonEnter s e hinv he0 hk0
          refine ⟨Or.inr ⟨s.nextId, h2, h1⟩, ?_⟩
          intro hd hdd
          rw [show (stepT s (TimerActionT.keydown e)) = (handleKeyDownT s e).1
            from rfl, h2] at hdd
          injection hdd with hdd0
          subst hdd0
          rw [show (stepT s (TimerActionT.keydown e)) = (handleKeyDownT s e).1
            from rfl, h3]
          omega
  | fire hd =>
      by_cases hmem : hd ∈ s.live
      · obtain ⟨h1, h2⟩ := hinv
        rcases h1 with hl | ⟨h0, hh, hl⟩
        · rw [hl] at hmem; cases hmem
        · rw [hl] at hmem
          have hd0 : hd = h0 := by simpa using hmem
          subst hd0
          refine ⟨Or.inl ?_, ?_⟩
          · simp [stepT, fireTimerT, hl, hh]
          · intro x hx
            simp only [stepT, fireTimerT, hl] at hx ⊢
            simp at hx ⊢
            exact h2 x hx
      · simp only [stepT, fireTimerT, if_neg hmem]
        exact hinv
  | stop =>
      have hinv2 : timerInv { s with buffer := [] } := hinv
      obtain ⟨hl, hr, hn, _, _⟩ := clearCurrent_facts _ hinv2
      refine ⟨Or.inl hl, ?_⟩
      intro x hx
      rw [show (stepT s TimerActionT.stop) = clearCurrent { s with buffer := [] }
        from rfl, hr] at hx
      rw [show (stepT s TimerActionT.stop) = clearCurrent { s with buffer := [] }
        from rfl, hn]
      exact hinv.2 x hx

lemma timerInv_run (as : List TimerActionT) : ∀ s : TimerState,
    timerInv s → timerInv (runT s as) := by
  induction as with
  | nil => intro s h; exact h
  | cons a rest ih => intro s h; exact ih _ (timerInv_step s a h)

lemma timerInv_init : timerInv initialT :=
  ⟨Or.inl rfl, fun h hh => by cases hh⟩

/-- C7 counterexample: after the keystroke `a` one flush timer (handle 0)
is scheduled, and the subsequent Enter keystroke is processed (it emits
the code `a`) yet leaves no scheduled flush timer at all — so it is not
the case that every keystroke processed while active cancels the
previously scheduled flush timer and reschedules a new one. -/
theorem scanner_c7_counterexample :
    (runT initialT [TimerActionT.keydown (charKey 'a')]).live = [0] ∧
    (runT initialT [TimerActionT.keydown (charKey 'a'),
      TimerActionT.keydown enterEvent]).scannedCode = ['a'] ∧
    (runT initialT [TimerActionT.keydown (charKey 'a'),
      TimerActionT.keydown enterEvent]).live = [] := by
  decide

/-- C7 (amended): at most one scheduled flush timer exists in any state
reachable from the mount state; a keystroke that does not target an
editable element and is not Enter cancels the previously scheduled flush
timer and schedules a fresh one; an Enter keystroke cancels the
scheduled flush without scheduling a new one; a keystroke targeting an
editable element leaves the timers untouched. -/
theorem scanner_c7_amended :
    (∀ as : List TimerActionT, (runT initialT as).live.length ≤ 1) ∧
    (∀ (s : TimerState) (e : KeyEvent), timerInv s →
      e.targetEditable = false → (e.key == "Enter") = false →
      (handleKeyDownT s e).1.live = [s.nextId] ∧
      (∀ h, s.currentRef = some h → h ∉ (handleKeyDownT s e).1.live)) ∧
    (∀ (s : TimerState) (e : KeyEvent), timerInv s →
      e.targetEditable = false → e.key = "Enter" →
      (handleKeyDownT s e).1.live = []) ∧
    (∀ (s : TimerState) (e : KeyEvent), e.targetEditable = true →
      handleKeyDownT s e = (s, none)) := by
  refine ⟨?_, ?_, ?_, ?_⟩
  · intro as
    rcases (timerInv_run as initialT timerInv_init).1 with hl | ⟨h0, _, hl⟩ <;>
      simp [hl]
  · intro s e hinv he hk
    obtain ⟨h1, h2, h3⟩ := handleKeyDownT_nonEnter s e hinv he hk
    refine ⟨h1, ?_⟩
    intro hd hdd
    have hlt : hd < s.nextId := hinv.2 hd hdd
    rw [h1]
    simp
    omega
  · intro s e hinv he hk
    exact (handleKeyDownT_enter s e hinv he hk).1
  · intro s e he
    simp [handleKeyDownT, he]

theorem scanner_c7_witness :
    (handleKeyDownT initialT (charKey 'a')).1.live = [0] :=
  (scanner_c7_amended.2.1 initialT (charKey 'a')
    ⟨Or.inl rfl, fun h hh => by cases hh⟩ rfl (by decide)).1
